import Mathlib

/-!
Verification of the connection lifecycle, retry protocol and transaction
executor of the `database` package (configuration.go, connection.go,
errors.go, trymethod.go).

The Go code is shallowly embedded: the mutable `connection` struct becomes
an explicit state record (`Conn`), the outside world (results of
`sql.Open`, `db.PingContext`, the configuration hook, `tx.Rollback`,
`tx.Commit`) becomes an oracle record (`World`), and Go `error` values
become an inductive `Err` (with `Option Err` for nullable errors).
-/

namespace DatabaseSpec

/-- Backend database handles (`*sql.DB` values) are modelled as abstract
identifiers; the model never inspects a handle, it only installs, replaces
and passes them around, exactly as the Go code does. -/
abbrev Handle := Nat

/-- A `Connector` (configuration.go / mocks.go) is an immutable descriptor
of one backend target: a driver identifier and a connection string.
Go compares connectors with `==` (value equality), which is `DecidableEq`
here. -/
structure Connector where
  driver : String
  connString : String
deriving DecidableEq, Repr

instance : Inhabited Connector := ⟨⟨"", ""⟩⟩

mutual
/-- Go `error` values produced or consumed by the package (errors.go):

* `base n`     — an otherwise unstructured error value (e.g. a driver error),
  distinguished by a tag;
* `badConn`    — `driver.ErrBadConn`;
* `stack`      — `errors.New(string(debug.Stack()))`, the stack snapshot
  built in `Transact`'s deferred recovery block;
* `strError s` — the package's `Error` string type (sentinel constants);
* `connection cnc op cause`       — `ConnectionError{cnc, op, cause}`;
* `connectionFailed cause?`       — `ConnectionFailedError{cause}`; the cause
  is the result of `errors.Join`, which is `nil` when every joined error is
  `nil`, hence an `Option`;
* `configuration cause`           — `ConfigurationError{cause}`;
* `transaction txn op cause`      — `TransactionError{txn, op, cause}` (an
  empty `op` is the untagged form);
* `join es`    — the multi-error built by `errors.Join` from the non-nil
  arguments `es`, in argument order. -/
inductive Err : Type where
  | base : Nat → Err
  | badConn : Err
  | stack : Err
  | strError : String → Err
  | connection : Connector → String → Err → Err
  | connectionFailed : Option Err → Err
  | configuration : Err → Err
  | transaction : String → String → Err → Err
  | join : ErrList → Err
/-- The member list of a joined error (`errors.Join` keeps its non-nil
arguments as a slice); a separate inductive so that functions over `Err`
can recurse structurally. -/
inductive ErrList where
  | nil : ErrList
  | cons : Err → ErrList → ErrList
end

/-- Conversion from an ordinary list of errors to a joined-error member
list. -/
def toErrList : List Err → ErrList
  | [] => .nil
  | e :: es => .cons e (toErrList es)

mutual
/-- `errors.Is(e, driver.ErrBadConn)`: the target is matched by equality,
every wrapper type's `Unwrap` (errors.go) descends into its single cause,
and a joined error is traversed member-wise.  `ConnectionFailedError{nil}`
unwraps to `nil`, where traversal stops. -/
def errHasBadConn : Err → Bool
  | .badConn => true
  | .connection _ _ c => errHasBadConn c
  | .connectionFailed (some c) => errHasBadConn c
  | .configuration c => errHasBadConn c
  | .transaction _ _ c => errHasBadConn c
  | .join es => errListHasBadConn es
  | _ => false
def errListHasBadConn : ErrList → Bool
  | .nil => false
  | .cons e es => errHasBadConn e || errListHasBadConn es
end

mutual
/-- `errors.Is(e, TransactionError{txn, op, _})`: `TransactionError.Is`
(errors.go lines 106-111) matches any `TransactionError` with the same
transaction name and operation tag, ignoring the wrapped cause; wrappers
are unwrapped and joins traversed as in `errors.Is`. -/
def errHasTxTag (txn op : String) : Err → Bool
  | .transaction t o _ => t == txn && o == op
  | .connection _ _ c => errHasTxTag txn op c
  | .connectionFailed (some c) => errHasTxTag txn op c
  | .configuration c => errHasTxTag txn op c
  | .join es => errListHasTxTag txn op es
  | _ => false
def errListHasTxTag (txn op : String) : ErrList → Bool
  | .nil => false
  | .cons e es => errHasTxTag txn op e || errListHasTxTag txn op es
end

/-- The sentinel `ErrWithDbAndWithConnectorsIsInvalid` (errors.go line 11). -/
def ErrWithDbAndWithConnectorsIsInvalid : Err :=
  .strError "cannot use WithConnector(s) when using WithDb"

/-- The sentinel `ErrWithDbAndWithConfigurationIsInvalid` (errors.go line 12). -/
def ErrWithDbAndWithConfigurationIsInvalid : Err :=
  .strError "cannot use WithConfiguration when using WithDb"

/-- The sentinel `ErrPingTimeoutIsInvalid` (errors.go line 14). -/
def ErrPingTimeoutIsInvalid : Err :=
  .strError "ping timeout must be greater than or equal to zero"

/-- The oracle for the outside world: the result of `c.open(driver,
connString)` (`sql.Open` or an injected open func), of `db.PingContext`,
and of the optional post-connect configuration hook applied to a handle.
`none` from `pingRes`/`configureRes` is a `nil` error. -/
structure World where
  openRes : String → String → Except Err Handle
  pingRes : Handle → Option Err
  configureRes : Handle → Option Err

/-- The mutable state of the `connection` struct (connection.go lines
13-22), restricted to the fields the modelled operations read or write:
the live handle (`db`), the configured connectors, the most-recently-used
index (`mru`), whether a configuration hook is installed (`configure !=
nil`; its behaviour lives in `World.configureRes`), and the ping timeout. -/
structure Conn where
  db : Option Handle
  connectors : List Connector
  mru : Int
  hasConfigure : Bool
  pingTimeout : Int
deriving DecidableEq, Repr

/-- Go's `%` operator on integers truncates toward zero, which is
`Int.tmod`. -/
def gomod (a b : Int) : Int := a.tmod b

/-- Result of the probe loop of `connectany` (connection.go lines 80-102):
the per-attempt errors appended so far, the indices probed so far (ghost
instrumentation recording each `ix` at which a connector was tried), and
on success the index and handle of the first connector whose open and ping
both succeeded. -/
structure RotateResult where
  errs : List Err
  probed : List Nat
  res : Option (Int × Handle)

/-- The `for` loop of `connectany` (connection.go lines 84-102), with the
remaining iteration count as fuel (the Go loop runs `len(c.connectors)`
iterations).  Each iteration advances `ix = (ix + 1) % len(c.connectors)`,
reads `cnc := c.connectors[ix]` (always in range, since the numerator
`ix + 1` is non-negative and the loop is only reached with at least one
connector — with zero connectors Go would panic on `% 0` — so `getD`'s
default is never consulted in any reachable state), then opens and pings:
an open failure appends `ConnectionError{cnc, "open db", err}` and
continues, a ping failure appends `ConnectionError{cnc, "ping", err}` and
continues, and success breaks with the handle and index. -/
def rotateLoop (w : World) (cs : List Connector) :
    Nat → Int → List Err → List Nat → RotateResult
  | 0, _, errs, probed => ⟨errs, probed, none⟩
  | fuel + 1, ix, errs, probed =>
    let ix' := gomod (ix + 1) cs.length
    let cnc := cs.getD ix'.toNat default
    match w.openRes cnc.driver cnc.connString with
    | .error e =>
      rotateLoop w cs fuel ix' (errs ++ [.connection cnc "open db" e]) (probed ++ [ix'.toNat])
    | .ok db =>
      match w.pingRes db with
      | some e =>
        rotateLoop w cs fuel ix' (errs ++ [.connection cnc "ping" e]) (probed ++ [ix'.toNat])
      | none => ⟨errs, probed ++ [ix'.toNat], some (ix', db)⟩

/-- `errors.Join(errs...)` as called on `connectany`'s error slice
(connection.go line 105): the slice is created by `make([]error, N)` and
then appended to, so it holds `N` leading `nil` entries followed by the
appended per-attempt errors; `errors.Join` discards the `nil` entries and
returns `nil` when nothing remains, so the result depends only on the
appended errors, modelled here as the list `l`. -/
def joinErrs : List Err → Option Err
  | [] => none
  | l => some (.join (toErrList l))

/-- `connectany` (connection.go lines 79-115): record `curr := c.mru`, run
the probe loop; on loop success install the handle and the new `mru`; then
test `c.mru == curr` — if it holds, return
`ConnectionFailedError{errors.Join(errs...)}`; otherwise run the
configuration hook, if any, against the new handle (a hook failure is
returned as `ConfigurationError` with the handle left installed), and
return `nil`. -/
def connectany (w : World) (c : Conn) : Conn × Option Err :=
  let curr := c.mru
  let r := rotateLoop w c.connectors c.connectors.length curr [] []
  let c1 : Conn :=
    match r.res with
    | some (ix, db) => { c with db := some db, mru := ix }
    | none => c
  if c1.mru = curr then
    (c1, some (.connectionFailed (joinErrs r.errs)))
  else if c1.hasConfigure then
    match c1.db with
    | some db =>
      match w.configureRes db with
      | some e => (c1, some (.configuration e))
      | none => (c1, none)
    | none => (c1, none)
  else
    (c1, none)

/-- The probe order of one `connectany` rotation pass: the indices the
loop actually attempted (see `rotateLoop`'s ghost `probed` field). -/
def connectanyProbes (w : World) (c : Conn) : List Nat :=
  (rotateLoop w c.connectors c.connectors.length c.mru [] []).probed

/-- `reconnect` (connection.go lines 125-128): `c.close(true)` drops the
live handle ignoring any close error, then `c.connect` runs — which for a
multi-connector connection is `connectany`. -/
def reconnect (w : World) (c : Conn) : Conn × Option Err :=
  connectany w { c with db := none }

/-- Result of a `retry.try` run, with ghost counters: the final connection
state, the returned error, the number of invocations of `op`, and the
number of rotation (reconnect) attempts. -/
structure TryResult where
  conn : Conn
  err : Option Err
  opCalls : Nat
  rotations : Nat

/-- `retry.try` (trymethod.go lines 42-64): loop — invoke `op(c.db)`; a
`nil` result returns `nil`; an error not satisfying
`errors.Is(err, driver.ErrBadConn)` is returned as-is; otherwise
`c.reconnect(ctx)` runs, a reconnect failure returns
`errors.Join(err, cncerr)`, and a reconnect success re-enters the loop.
The Go loop has no iteration bound, so the model carries fuel and returns
`none` when the fuel is exhausted; `op` is the oracle for the caller's
operation, indexed by the invocation count and given the current handle
(possibly `nil`), exactly as the Go closure receives `c.db`. -/
def retryTry (w : World) (op : Nat → Option Handle → Option Err) :
    Nat → Conn → Nat → Nat → Option TryResult
  | 0, _, _, _ => none
  | fuel + 1, c, calls, rots =>
    match op calls c.db with
    | none => some ⟨c, none, calls + 1, rots⟩
    | some e =>
      if errHasBadConn e then
        match reconnect w c with
        | (c', some cncerr) => some ⟨c', some (.join (toErrList [e, cncerr])), calls + 1, rots + 1⟩
        | (c', none) => retryTry w op fuel c' (calls + 1) (rots + 1)
      else
        some ⟨c, some e, calls + 1, rots⟩

/-- How the caller-supplied unit of work passed to `Transact` exits:
normal return (`nil`), error return, or a panic. -/
inductive OpExit where
  | ok : OpExit
  | fails : Err → OpExit
  | panics : OpExit

/-- Outcome of a `Transact` run, with ghost counters for the number of
`tx.Rollback()` and `tx.Commit()` invocations. -/
structure TransactOutcome where
  err : Option Err
  rollbacks : Nat
  commits : Nat

/-- `Transact` after a successful begin (connection.go lines 302-336).
The `rollback` flag is set, and a deferred block is armed which (a) on a
recovered panic overwrites the returned error with
`TransactionError{name, "panic", errors.New(string(debug.Stack()))}`, and
(b) if the flag is still set, calls `tx.Rollback()` once, joining a
rollback failure onto the returned error.  Then:
* the unit of work returning error `e` returns
  `TransactionError{txn: name, error: e}` (empty tag) through the deferred
  block with the flag still set;
* a panic in the unit of work reaches the deferred block with the flag
  still set;
* a `nil` return clears the flag and calls `tx.Commit()` once, a commit
  failure returning `TransactionError{name, "commit", err}`; the deferred
  block then does nothing. -/
def transactAfterBegin (name : String) (ek : OpExit) (rbRes cmRes : Option Err) :
    TransactOutcome :=
  match ek with
  | .panics =>
    let perr := Err.transaction name "panic" .stack
    match rbRes with
    | some rb => ⟨some (.join (toErrList [perr, .transaction name "rollback" rb])), 1, 0⟩
    | none => ⟨some perr, 1, 0⟩
  | .fails e =>
    let oerr := Err.transaction name "" e
    match rbRes with
    | some rb => ⟨some (.join (toErrList [oerr, .transaction name "rollback" rb])), 1, 0⟩
    | none => ⟨some oerr, 1, 0⟩
  | .ok =>
    match cmRes with
    | some ce => ⟨some (.transaction name "commit" ce), 0, 1⟩
    | none => ⟨none, 0, 1⟩

/-- `Transact` (connection.go lines 290-336) with the result of the
`try`-wrapped `BeginTx` abstracted as `beginRes`: a begin failure returns
`TransactionError{name, "begin", err}` with no transaction begun (no
rollback or commit is ever attempted); otherwise execution proceeds as in
`transactAfterBegin`. -/
def transact (name : String) (beginRes : Option Err) (ek : OpExit)
    (rbRes cmRes : Option Err) : TransactOutcome :=
  match beginRes with
  | some e => ⟨some (.transaction name "begin" e), 0, 0⟩
  | none => transactAfterBegin name ek rbRes cmRes

/-- The append-if-absent step shared by `WithConnector` and
`WithConnectors` (configuration.go lines 21-23 and 44-47):
`if !slices.Contains(cnc.connectors, c) { cnc.connectors = append(...) }`. -/
def addConnector (l : List Connector) (c : Connector) : List Connector :=
  if c ∈ l then l else l ++ [c]

/-- The configuration functions of configuration.go, as data:
`WithConnector`, `WithConnectors`, `WithDbConfiguration` (records only
that a hook is now present), `WithDb`, `WithPingTimeout`. -/
inductive CfgFunc where
  | withConnector : Connector → CfgFunc
  | withConnectors : List Connector → CfgFunc
  | withDbConfiguration : CfgFunc
  | withDb : Handle → CfgFunc
  | withPingTimeout : Int → CfgFunc

/-- Application of one configuration function to the connection under
construction (configuration.go lines 16-106): each function first
validates (a connector may not be added once a db is injected, a db may
not be injected once connectors or a hook exist, a negative ping timeout
is rejected) and then updates the state. -/
def applyCfg (c : Conn) : CfgFunc → Except Err Conn
  | .withConnector cnc =>
    if c.db ≠ none then .error ErrWithDbAndWithConnectorsIsInvalid
    else .ok { c with connectors := addConnector c.connectors cnc }
  | .withConnectors cncs =>
    if c.db ≠ none then .error ErrWithDbAndWithConnectorsIsInvalid
    else .ok { c with connectors := cncs.foldl addConnector c.connectors }
  | .withDbConfiguration =>
    if c.db ≠ none then .error ErrWithDbAndWithConfigurationIsInvalid
    else .ok { c with hasConfigure := true }
  | .withDb h =>
    if c.connectors ≠ [] then .error ErrWithDbAndWithConnectorsIsInvalid
    else if c.hasConfigure then .error ErrWithDbAndWithConfigurationIsInvalid
    else .ok { c with db := some h }
  | .withPingTimeout t =>
    if t < 0 then .error ErrPingTimeoutIsInvalid
    else .ok { c with pingTimeout := t }

/-- The initial connection state built by `NewConnection` (connection.go
lines 31-34) before the configuration functions run: no handle, no
connectors, `mru = -1`. -/
def newConnectionInit : Conn := ⟨none, [], -1, false, 0⟩

/-- `NewConnection`'s configuration loop (connection.go lines 37-41):
apply each configuration function in order, stopping at the first error,
which is returned wrapped in `ConfigurationError`. -/
def applyCfgs : Conn → List CfgFunc → Except Err Conn
  | c, [] => .ok c
  | c, f :: fs =>
    match applyCfg c f with
    | .error e => .error (.configuration e)
    | .ok c' => applyCfgs c' fs

/-- The connectors a list of configuration functions asks to add, in
request order (`WithConnector` contributes one, `WithConnectors` its list,
the others none). -/
def requested : List CfgFunc → List Connector
  | [] => []
  | .withConnector c :: fs => c :: requested fs
  | .withConnectors cs :: fs => cs ++ requested fs
  | _ :: fs => requested fs

/-- The deduplication the configuration functions perform, as a standalone
function: keep each connector's first occurrence, in order. -/
def firstDedup (l : List Connector) : List Connector :=
  l.foldl addConnector []

/-- The invariant claimed for `mru` (spec §3): it is `-1` or a valid index
into `connectors`. -/
def mruInv (c : Conn) : Prop :=
  c.mru = -1 ∨ (0 ≤ c.mru ∧ c.mru < c.connectors.length)

/-- One connector's open-and-ping attempt fails in world `w`: either the
open fails, or it succeeds and the ping of the returned handle fails. -/
def connFailsB (w : World) (cnc : Connector) : Bool :=
  match w.openRes cnc.driver cnc.connString with
  | .error _ => true
  | .ok h => (w.pingRes h).isSome

/-- The `ConnectionError` that one failing open-and-ping attempt appends
for connector `cnc` (connection.go lines 90 and 95); when the attempt does
not fail the `ping` default branch is never consulted by any lemma. -/
def attemptErrOf (w : World) (cnc : Connector) : Err :=
  match w.openRes cnc.driver cnc.connString with
  | .error e => .connection cnc "open db" e
  | .ok h =>
    match w.pingRes h with
    | some e => .connection cnc "ping" e
    | none => .connection cnc "ping" (.base 0)

/-- The candidate order of one rotation pass over `n` connectors starting
after index `m`, as the spec states it: `(m+1)%n, (m+2)%n, ...` for `fuel`
steps. -/
def specProbeOrder (n : Nat) (m : Int) (fuel : Nat) : List Nat :=
  (List.range fuel).map (fun i : Nat => (gomod (m + 1 + (i : Int)) n).toNat)

/-- A concrete two-target configuration: the first connector. -/
def connA : Connector := ⟨"drv", "a"⟩

/-- A concrete two-target configuration: the second connector. -/
def connB : Connector := ⟨"drv", "b"⟩

/-- A concrete world in which connector `connA` opens (handle `1`) and
pings fine, while opening connector `connB` fails. -/
def worldOnlyA : World :=
  ⟨fun _ cs => if cs = "a" then .ok 1 else .error (.base 7),
   fun _ => none, fun _ => none⟩

/-- A concrete connection state: two connectors `[connA, connB]`, live
handle `0`, most recently used connector index `0` (`connA`). -/
def connStateMruA : Conn := ⟨some 0, [connA, connB], 0, false, 0⟩

/-- A concrete operation that fails with `driver.ErrBadConn` on its first
invocation and succeeds on every later one. -/
def badThenOkOp : Nat → Option Handle → Option Err :=
  fun k _ => if k = 0 then some .badConn else none

/-- A concrete world in which opening any connector fails. -/
def worldAllFail : World :=
  ⟨fun _ _ => .error (.base 9), fun _ => none, fun _ => none⟩

end DatabaseSpec

namespace DatabaseSpec

section Helpers

lemma gomod_zero_right (a : Int) : gomod a 0 = a := Int.tmod_zero a

lemma gomod_nonneg {a : Int} (b : Int) (h : 0 ≤ a) : 0 ≤ gomod a b :=
  Int.tmod_nonneg _ h

lemma gomod_eq_emod {a b : Int} (ha : 0 ≤ a) (hb : 0 ≤ b) : gomod a b = a % b :=
  Int.tmod_eq_emod ha hb

lemma gomod_lt {a b : Int} (ha : 0 ≤ a) (hb : 0 < b) : gomod a b < b := by
  rw [gomod_eq_emod ha (le_of_lt hb)]
  exact Int.emod_lt_of_pos a hb

lemma gomod_shift (a b n : Int) (ha : 0 ≤ a) (hb : 0 ≤ b) (hn : 0 ≤ n) :
    gomod (gomod a n + b) n = gomod (a + b) n := by
  rcases eq_or_lt_of_le hn with hn0 | hnpos
  · rw [← hn0, gomod_zero_right, gomod_zero_right, gomod_zero_right]
  · have h1 : 0 ≤ gomod a n := gomod_nonneg n ha
    rw [gomod_eq_emod (by omega) (le_of_lt hnpos),
      gomod_eq_emod ha (le_of_lt hnpos), gomod_eq_emod (by omega) (le_of_lt hnpos),
      Int.emod_add_emod]

lemma specProbeOrder_succ (n : Nat) (ix : Int) (fuel : Nat) (hix : -1 ≤ ix) :
    specProbeOrder n ix (fuel + 1)
      = (gomod (ix + 1) n).toNat :: specProbeOrder n (gomod (ix + 1) n) fuel := by
  have key : ∀ i : Nat,
      gomod (ix + 1 + (((i + 1 : Nat)) : Int)) n = gomod (gomod (ix + 1) n + 1 + (i : Int)) n := by
    intro i
    have e1 : ix + 1 + (((i + 1 : Nat)) : Int) = (ix + 1) + (1 + (i : Int)) := by
      push_cast
      ring
    have e2 : gomod (ix + 1) n + 1 + (i : Int) = gomod (ix + 1) n + (1 + (i : Int)) := by
      ring
    rw [e1, e2, gomod_shift (ix + 1) (1 + (i : Int)) n (by omega) (by omega)
      (Int.natCast_nonneg n)]
  unfold specProbeOrder
  rw [List.range_succ_eq_map, List.map_cons, List.map_map]
  congr 1
  · norm_num
  · congr 1
    funext i
    simp only [Function.comp_apply]
    exact congrArg Int.toNat (key i)

lemma getD_mem {α : Type} (l : List α) (i : Nat) (d : α) (h : i < l.length) :
    l.getD i d ∈ l := by
  induction l generalizing i with
  | nil => simp at h
  | cons a t ih =>
    cases i with
    | zero => simp [List.getD]
    | succ k =>
      simp only [List.getD_cons_succ]
      exact List.mem_cons_of_mem a (ih k (by simpa using h))

lemma specProbeOrder_nodup (n : Nat) (m : Int) (hn : 1 ≤ n) (hm : -1 ≤ m) :
    (specProbeOrder n m n).Nodup := by
  unfold specProbeOrder
  refine List.Nodup.map_on ?_ (List.nodup_range n)
  intro i hi j hj heq
  rw [List.mem_range] at hi hj
  have hpos : (0 : Int) < n := by exact_mod_cast hn
  have h1 : (0 : Int) ≤ m + 1 + i := by omega
  have h2 : (0 : Int) ≤ m + 1 + j := by omega
  have g1 : 0 ≤ gomod (m + 1 + (i : Int)) n := gomod_nonneg _ h1
  have g2 : 0 ≤ gomod (m + 1 + (j : Int)) n := gomod_nonneg _ h2
  have hinteq : gomod (m + 1 + (i : Int)) n = gomod (m + 1 + (j : Int)) n := by
    have hc := congrArg (fun t : Nat => (t : Int)) heq
    simpa [Int.toNat_of_nonneg g1, Int.toNat_of_nonneg g2] using hc
  rw [gomod_eq_emod h1 (le_of_lt hpos), gomod_eq_emod h2 (le_of_lt hpos)] at hinteq
  have hsub : ((i : Int) - j) % n = 0 := by
    have e : (i : Int) - j = (m + 1 + i) - (m + 1 + j) := by ring
    rw [e, Int.sub_emod, hinteq, sub_self, Int.zero_emod]
  have hdvd : (n : Int) ∣ ((i : Int) - j) := Int.dvd_of_emod_eq_zero hsub
  have habs : ((i : Int) - j).natAbs < ((n : Int)).natAbs := by
    simp only [Int.natAbs_ofNat]
    omega
  have := Int.eq_zero_of_dvd_of_natAbs_lt_natAbs hdvd habs
  omega

lemma joinErrs_of_ne_nil (l : List Err) (h : l ≠ []) :
    joinErrs l = some (.join (toErrList l)) := by
  cases l with
  | nil => exact absurd rfl h
  | cons a t => rfl

lemma rotateLoop_allFail (w : World) (cs : List Connector)
    (hf : ∀ cnc ∈ cs, connFailsB w cnc = true) (hn : 1 ≤ cs.length) :
    ∀ fuel (ix : Int) (errs : List Err) (probed : List Nat), -1 ≤ ix →
      rotateLoop w cs fuel ix errs probed =
        ⟨errs ++ (specProbeOrder cs.length ix fuel).map
            (fun i => attemptErrOf w (cs.getD i default)),
         probed ++ specProbeOrder cs.length ix fuel, none⟩ := by
  intro fuel
  induction fuel with
  | zero =>
    intro ix errs probed hix
    simp [rotateLoop, specProbeOrder]
  | succ k ih =>
    intro ix errs probed hix
    have hpos : (0 : Int) < cs.length := by exact_mod_cast hn
    have hix'0 : 0 ≤ gomod (ix + 1) cs.length := gomod_nonneg _ (by omega)
    have hix'lt : gomod (ix + 1) cs.length < cs.length := gomod_lt (by omega) hpos
    have hixnat : (gomod (ix + 1) cs.length).toNat < cs.length := by omega
    have hmem : cs.getD (gomod (ix + 1) cs.length).toNat default ∈ cs :=
      getD_mem cs _ default hixnat
    have hfail := hf _ hmem
    rw [specProbeOrder_succ cs.length ix k hix]
    unfold rotateLoop
    unfold connFailsB at hfail
    cases hopen : w.openRes (cs.getD (gomod (ix + 1) cs.length).toNat default).driver
        (cs.getD (gomod (ix + 1) cs.length).toNat default).connString with
    | error e =>
      simp only [hopen]
      rw [ih (gomod (ix + 1) cs.length) _ _ (by omega)]
      simp only [List.map_cons, attemptErrOf, hopen]
      simp [List.append_assoc]
    | ok db =>
      rw [hopen] at hfail
      simp only [] at hfail
      cases hping : w.pingRes db with
      | none =>
        simp [hping] at hfail
      | some e =>
        simp only [hopen, hping]
        rw [ih (gomod (ix + 1) cs.length) _ _ (by omega)]
        simp only [List.map_cons, attemptErrOf, hopen, hping]
        simp [List.append_assoc]

lemma rotateLoop_success (w : World) (cs : List Connector) (hn : 1 ≤ cs.length) :
    ∀ fuel (ix : Int) (errs : List Err) (probed : List Nat) (j : Int) (hdl : Handle),
      -1 ≤ ix →
      (rotateLoop w cs fuel ix errs probed).res = some (j, hdl) →
      0 ≤ j ∧ j < cs.length ∧
        w.openRes (cs.getD j.toNat default).driver (cs.getD j.toNat default).connString
          = .ok hdl ∧
        w.pingRes hdl = none := by
  intro fuel
  induction fuel with
  | zero =>
    intro ix errs probed j hdl hix hres
    simp [rotateLoop] at hres
  | succ k ih =>
    intro ix errs probed j hdl hix hres
    have hpos : (0 : Int) < cs.length := by exact_mod_cast hn
    have hix'0 : 0 ≤ gomod (ix + 1) cs.length := gomod_nonneg _ (by omega)
    have hix'lt : gomod (ix + 1) cs.length < cs.length := gomod_lt (by omega) hpos
    simp only [rotateLoop] at hres
    cases hopen : w.openRes (cs.getD (gomod (ix + 1) cs.length).toNat default).driver
        (cs.getD (gomod (ix + 1) cs.length).toNat default).connString with
    | error e =>
      rw [hopen] at hres
      exact ih (gomod (ix + 1) cs.length) _ _ j hdl (by omega) hres
    | ok db =>
      rw [hopen] at hres
      simp only [] at hres
      cases hping : w.pingRes db with
      | some e =>
        rw [hping] at hres
        exact ih (gomod (ix + 1) cs.length) _ _ j hdl (by omega) hres
      | none =>
        rw [hping] at hres
        simp only [Option.some.injEq, Prod.mk.injEq] at hres
        obtain ⟨hj, hd⟩ := hres
        subst hj
        subst hd
        exact ⟨hix'0, hix'lt, hopen, hping⟩

lemma rotateLoop_probed_prefix (w : World) (cs : List Connector) :
    ∀ fuel (ix : Int) (errs : List Err) (probed : List Nat), -1 ≤ ix →
      ∃ P t, (rotateLoop w cs fuel ix errs probed).probed = probed ++ P ∧
        specProbeOrder cs.length ix fuel = P ++ t := by
  intro fuel
  induction fuel with
  | zero =>
    intro ix errs probed hix
    exact ⟨[], [], by simp [rotateLoop], by simp [specProbeOrder]⟩
  | succ k ih =>
    intro ix errs probed hix
    have hix'0 : 0 ≤ gomod (ix + 1) cs.length := gomod_nonneg _ (by omega)
    rw [specProbeOrder_succ cs.length ix k hix]
    unfold rotateLoop
    cases hopen : w.openRes (cs.getD (gomod (ix + 1) cs.length).toNat default).driver
        (cs.getD (gomod (ix + 1) cs.length).toNat default).connString with
    | error e =>
      simp only [hopen]
      obtain ⟨P, t, h1, h2⟩ := ih (gomod (ix + 1) cs.length)
        (errs ++ [.connection (cs.getD (gomod (ix + 1) cs.length).toNat default) "open db" e])
        (probed ++ [(gomod (ix + 1) cs.length).toNat]) (by omega)
      exact ⟨(gomod (ix + 1) cs.length).toNat :: P, t,
        by rw [h1]; simp, by rw [h2, List.cons_append]⟩
    | ok db =>
      cases hping : w.pingRes db with
      | some e =>
        simp only [hopen, hping]
        obtain ⟨P, t, h1, h2⟩ := ih (gomod (ix + 1) cs.length)
          (errs ++ [.connection (cs.getD (gomod (ix + 1) cs.length).toNat default) "ping" e])
          (probed ++ [(gomod (ix + 1) cs.length).toNat]) (by omega)
        exact ⟨(gomod (ix + 1) cs.length).toNat :: P, t,
          by rw [h1]; simp, by rw [h2, List.cons_append]⟩
      | none =>
        simp only [hopen, hping]
        exact ⟨[(gomod (ix + 1) cs.length).toNat],
          specProbeOrder cs.length (gomod (ix + 1) cs.length) k, rfl, rfl⟩

lemma connectany_fst (w : World) (c : Conn) :
    (connectany w c).1 =
      match (rotateLoop w c.connectors c.connectors.length c.mru [] []).res with
      | some x => { c with db := some x.2, mru := x.1 }
      | none => c := by
  unfold connectany
  rcases hres : (rotateLoop w c.connectors c.connectors.length c.mru [] []).res with _ | x
  · simp only [hres]
    repeat' split
    all_goals rfl
  · simp only [hres]
    repeat' split
    all_goals rfl

lemma addConnector_nodup (l : List Connector) (c : Connector) (h : l.Nodup) :
    (addConnector l c).Nodup := by
  unfold addConnector
  split
  · exact h
  · rename_i hc
    simp [List.nodup_append, h, hc]

lemma mem_addConnector (l : List Connector) (c x : Connector) :
    x ∈ addConnector l c ↔ x ∈ l ∨ x = c := by
  unfold addConnector
  split
  · rename_i hc
    constructor
    · exact Or.inl
    · rintro (hx | rfl)
      · exact hx
      · exact hc
  · simp

lemma foldl_addConnector_nodup :
    ∀ (l : List Connector) (acc : List Connector), acc.Nodup →
      (l.foldl addConnector acc).Nodup := by
  intro l
  induction l with
  | nil => intro acc h; exact h
  | cons a t ih =>
    intro acc h
    exact ih (addConnector acc a) (addConnector_nodup acc a h)

lemma mem_foldl_addConnector :
    ∀ (l acc : List Connector) (x : Connector),
      x ∈ l.foldl addConnector acc ↔ x ∈ acc ∨ x ∈ l := by
  intro l
  induction l with
  | nil => intro acc x; simp
  | cons a t ih =>
    intro acc x
    rw [List.foldl_cons, ih (addConnector acc a) x, mem_addConnector]
    simp
    tauto

lemma mem_firstDedup (l : List Connector) (x : Connector) :
    x ∈ firstDedup l ↔ x ∈ l := by
  unfold firstDedup
  rw [mem_foldl_addConnector]
  simp

lemma firstDedup_append_singleton (l : List Connector) (a : Connector) :
    firstDedup (l ++ [a]) = addConnector (firstDedup l) a := by
  unfold firstDedup
  rw [List.foldl_append]
  rfl

lemma firstDedup_eq_reverse_dedup (l : List Connector) :
    firstDedup l = (l.reverse.dedup).reverse := by
  induction l using List.reverseRecOn with
  | nil => rfl
  | append_singleton t a ih =>
    rw [firstDedup_append_singleton, addConnector]
    rw [List.reverse_append]
    simp only [List.reverse_cons, List.reverse_nil, List.nil_append, List.singleton_append]
    by_cases hmem : a ∈ t
    · have h1 : a ∈ firstDedup t := (mem_firstDedup t a).2 hmem
      have h2 : a ∈ t.reverse := by simpa using hmem
      rw [if_pos h1, List.dedup_cons_of_mem h2, ih]
    · have h1 : a ∉ firstDedup t := fun h => hmem ((mem_firstDedup t a).1 h)
      have h2 : a ∉ t.reverse := by simpa using hmem
      rw [if_neg h1, List.dedup_cons_of_not_mem h2, List.reverse_cons, ih]

lemma connectany_inv_aux (w : World) (c : Conn)
    (hn : 1 ≤ c.connectors.length) (hm : mruInv c) :
    mruInv (connectany w c).1 ∧
    ((connectany w c).1.mru ≠ c.mru → ∃ hdl,
      (connectany w c).1.db = some hdl ∧
      w.openRes (c.connectors.getD (connectany w c).1.mru.toNat default).driver
        (c.connectors.getD (connectany w c).1.mru.toNat default).connString = .ok hdl ∧
      w.pingRes hdl = none) := by
  have hm1 : -1 ≤ c.mru := by
    rcases hm with h | ⟨h1, h2⟩ <;> omega
  have hfst := connectany_fst w c
  rcases hres : (rotateLoop w c.connectors c.connectors.length c.mru [] []).res with _ | x
  · rw [hres] at hfst
    simp only [] at hfst
    refine ⟨by rw [hfst]; exact hm, ?_⟩
    intro hne
    rw [hfst] at hne
    exact absurd rfl hne
  · rcases x with ⟨j, hdl⟩
    rw [hres] at hfst
    simp only [] at hfst
    obtain ⟨hj0, hjlt, hopen, hping⟩ :=
      rotateLoop_success w c.connectors hn c.connectors.length c.mru [] [] j hdl hm1 hres
    refine ⟨?_, ?_⟩
    · rw [hfst]
      exact Or.inr ⟨hj0, hjlt⟩
    · intro hne
      exact ⟨hdl, by rw [hfst], by rw [hfst]; exact hopen, hping⟩

lemma connectany_connectors_eq (w : World) (c : Conn) :
    (connectany w c).1.connectors = c.connectors := by
  rw [connectany_fst]
  rcases hres : (rotateLoop w c.connectors c.connectors.length c.mru [] []).res with _ | x <;>
    simp only [hres]

lemma retryTry_mruInv (w : World) (op : Nat → Option Handle → Option Err) :
    ∀ (fuel : Nat) (c : Conn) (calls rots : Nat) (r : TryResult),
      1 ≤ c.connectors.length → mruInv c →
      retryTry w op fuel c calls rots = some r → mruInv r.conn := by
  intro fuel
  induction fuel with
  | zero =>
    intro c calls rots r hn hm hr
    simp [retryTry] at hr
  | succ k ih =>
    intro c calls rots r hn hm hr
    simp only [retryTry] at hr
    cases hop : op calls c.db with
    | none =>
      rw [hop] at hr
      simp only [Option.some.injEq] at hr
      rw [← hr]
      exact hm
    | some e =>
      rw [hop] at hr
      simp only [] at hr
      by_cases hbad : errHasBadConn e
      · rw [if_pos hbad] at hr
        have hm2 : mruInv ({ c with db := none } : Conn) := hm
        have hn2 : 1 ≤ ({ c with db := none } : Conn).connectors.length := hn
        have hinv := (connectany_inv_aux w { c with db := none } hn2 hm2).1
        rcases hrc : reconnect w c with ⟨c', oe⟩
        have hcfst : (connectany w { c with db := none }).1 = c' := by
          have h := congrArg Prod.fst hrc
          simpa [reconnect] using h
        have hinvc' : mruInv c' := hcfst ▸ hinv
        have hnc' : 1 ≤ c'.connectors.length := by
          rw [← hcfst, connectany_connectors_eq]
          exact hn
        rw [hrc] at hr
        cases oe with
        | some cncerr =>
          simp only [Option.some.injEq] at hr
          rw [← hr]
          exact hinvc'
        | none =>
          simp only [] at hr
          exact ih c' (calls + 1) (rots + 1) r hnc' hinvc' hr
      · rw [if_neg hbad] at hr
        simp only [Option.some.injEq] at hr
        rw [← hr]
        exact hm

lemma applyCfgs_connectors :
    ∀ (fs : List CfgFunc) (c c' : Conn), applyCfgs c fs = .ok c' →
      c'.connectors = (requested fs).foldl addConnector c.connectors := by
  intro fs
  induction fs with
  | nil =>
    intro c c' h
    simp only [applyCfgs] at h
    cases h
    rfl
  | cons f fs ih =>
    intro c c' h
    simp only [applyCfgs] at h
    cases happ : applyCfg c f with
    | error e => rw [happ] at h; exact absurd h (by simp)
    | ok c1 =>
      rw [happ] at h
      simp only [] at h
      have hrec := ih c1 c' h
      cases f with
      | withConnector cnc =>
        simp only [applyCfg] at happ
        split at happ
        · exact absurd happ (by simp)
        · cases happ
          rw [hrec]
          simp [requested]
      | withConnectors cncs =>
        simp only [applyCfg] at happ
        split at happ
        · exact absurd happ (by simp)
        · cases happ
          rw [hrec]
          simp [requested, List.foldl_append]
      | withDbConfiguration =>
        simp only [applyCfg] at happ
        split at happ
        · exact absurd happ (by simp)
        · cases happ
          rw [hrec]
          simp [requested]
      | withDb hdl =>
        simp only [applyCfg] at happ
        split at happ
        · exact absurd happ (by simp)
        · split at happ
          · exact absurd happ (by simp)
          · cases happ
            rw [hrec]
            simp [requested]
      | withPingTimeout t =>
        simp only [applyCfg] at happ
        split at happ
        · exact absurd happ (by simp)
        · cases happ
          rw [hrec]
          simp [requested]

end Helpers

/-- C1: the claim says `connectany` returns `nil` whenever some candidate
opens and pings successfully, including when that candidate is the
connector at the current `mru` index.  The code violates this: at the
concrete state with connectors `[connA, connB]`, `mru = 0`, in a world
where only `connA` (the `mru` connector) is reachable, `connectany`
installs `connA`'s handle and keeps `mru = 0`, yet returns a
`ConnectionFailedError` (its success test `c.mru == curr` cannot tell
"succeeded at the mru index" from "all failed"), contradicting its own
doc comment "If a connection is established a nil error is returned". -/
theorem connectany_mru_success_reports_failure :
    connectany worldOnlyA connStateMruA
      = (⟨some 1, [connA, connB], 0, false, 0⟩,
         some (.connectionFailed (some (.join (toErrList
           [.connection connB "open db" (.base 7)]))))) := rfl

/-- C2: the claim says `retry.try` succeeds after one rotation and two
invocations of `op` whenever some connector is workable.  At the concrete
state with connectors `[connA, connB]`, `mru = 0`, in a world where only
`connA` (the `mru` connector) is workable, and an `op` failing with
`driver.ErrBadConn` once and succeeding afterwards, `try` instead returns
a joined error after one rotation pass and a single invocation of `op`,
because `connectany` mis-reports the successful reconnect to the `mru`
connector as a failure. -/
theorem retryTry_workable_mru_still_fails :
    retryTry worldOnlyA badThenOkOp 5 connStateMruA 0 0
      = some ⟨⟨some 1, [connA, connB], 0, false, 0⟩,
          some (.join (toErrList [.badConn,
            .connectionFailed (some (.join (toErrList
              [.connection connB "open db" (.base 7)])))])), 1, 1⟩ := rfl

/-- C3 counterexample: the claim says rollback is attempted exactly once
regardless of how the unit of work exits, including a normal (`nil`)
return; but on a normal return `Transact` clears the rollback flag and
commits, so no rollback is attempted. -/
theorem transact_ok_attempts_no_rollback :
    ¬ ((transact "t" none .ok none none).rollbacks = 1) := by decide

/-- C3 (amended): once a transaction has been begun, rollback is attempted
exactly once when the unit of work exits with an error return or an
abnormal fault (panic), and is not attempted at all on a normal return,
where commit is attempted exactly once instead — regardless of the
rollback and commit results. -/
theorem transact_rollback_discipline (name : String) (ek : OpExit) (rb cm : Option Err) :
    (transact name none ek rb cm).rollbacks
        = (match ek with | .ok => 0 | .fails _ => 1 | .panics => 1) ∧
    (transact name none ek rb cm).commits
        = (match ek with | .ok => 1 | .fails _ => 0 | .panics => 0) := by
  cases ek <;> cases rb <;> cases cm <;> exact ⟨rfl, rfl⟩

/-- C4: when every candidate of a rotation pass fails, `connectany`
leaves the whole connection state unchanged (`mru` and the live handle
included) and returns a `ConnectionFailedError` wrapping exactly one
`ConnectionError` per connector, listed in attempt (probe) order. -/
theorem connectany_all_fail_reports_every_cause (w : World) (c : Conn)
    (hn : 1 ≤ c.connectors.length) (hm : -1 ≤ c.mru)
    (hf : ∀ cnc ∈ c.connectors, connFailsB w cnc = true) :
    (connectany w c).1 = c ∧
    (connectany w c).2 = some (.connectionFailed (some (.join (toErrList
      ((specProbeOrder c.connectors.length c.mru c.connectors.length).map
        (fun i => attemptErrOf w (c.connectors.getD i default))))))) ∧
    ((specProbeOrder c.connectors.length c.mru c.connectors.length).map
        (fun i => attemptErrOf w (c.connectors.getD i default))).length
      = c.connectors.length := by
  have hloop := rotateLoop_allFail w c.connectors hf hn c.connectors.length c.mru [] [] hm
  have hlen : ((specProbeOrder c.connectors.length c.mru c.connectors.length).map
      (fun i => attemptErrOf w (c.connectors.getD i default))).length
      = c.connectors.length := by
    simp [specProbeOrder]
  have hne : (specProbeOrder c.connectors.length c.mru c.connectors.length).map
      (fun i => attemptErrOf w (c.connectors.getD i default)) ≠ [] := by
    intro hcontra
    rw [hcontra] at hlen
    simp at hlen
    omega
  refine ⟨?_, ?_, hlen⟩
  · simp only [connectany, hloop, List.nil_append]
    rw [if_pos trivial]
  · simp only [connectany, hloop, List.nil_append]
    rw [if_pos trivial, joinErrs_of_ne_nil _ hne]

/-- C4 witness. -/
theorem connectany_all_fail_reports_every_cause_witness :
    (∀ cnc ∈ connStateMruA.connectors, connFailsB worldAllFail cnc = true) ∧
    (connectany worldAllFail connStateMruA).1 = connStateMruA :=
  ⟨by decide,
   (connectany_all_fail_reports_every_cause worldAllFail connStateMruA
     (by decide) (by decide) (by decide)).1⟩

/-- C5: one rotation pass probes candidates following the order
`(m+1)%N, (m+2)%N, ..., m` — the probed indices are a prefix of that
sequence (the pass stops early at the first success), the sequence and
hence the probed indices contain no repeats, with `m = -1` the sequence
is simply `0, 1, ..., N-1`, and with `0 ≤ m` the sequence ends at `m`
itself. -/
theorem connectany_probe_order (w : World) (c : Conn)
    (hn : 1 ≤ c.connectors.length) (hm1 : -1 ≤ c.mru)
    (hm2 : c.mru < (c.connectors.length : Int)) :
    (∃ t, specProbeOrder c.connectors.length c.mru c.connectors.length
        = connectanyProbes w c ++ t) ∧
    (connectanyProbes w c).Nodup ∧
    (specProbeOrder c.connectors.length c.mru c.connectors.length).Nodup ∧
    (c.mru = -1 → specProbeOrder c.connectors.length c.mru c.connectors.length
        = List.range c.connectors.length) ∧
    (0 ≤ c.mru →
      (specProbeOrder c.connectors.length c.mru c.connectors.length)[c.connectors.length - 1]?
        = some c.mru.toNat) := by
  obtain ⟨P, t, h1, h2⟩ :=
    rotateLoop_probed_prefix w c.connectors c.connectors.length c.mru [] [] hm1
  have hP : connectanyProbes w c = P := by
    unfold connectanyProbes
    rw [h1]
    simp
  have hnodup := specProbeOrder_nodup c.connectors.length c.mru hn hm1
  have hpos : (0 : Int) < c.connectors.length := by exact_mod_cast hn
  refine ⟨⟨t, by rw [hP, ← h2]⟩, ?_, hnodup, ?_, ?_⟩
  · rw [hP]
    rw [h2] at hnodup
    exact hnodup.of_append_left
  · intro hmru
    rw [hmru]
    unfold specProbeOrder
    have hcong : ∀ i ∈ List.range c.connectors.length,
        (gomod ((-1 : Int) + 1 + (i : Int)) c.connectors.length).toNat = i := by
      intro i hi
      rw [List.mem_range] at hi
      have h0 : (-1 : Int) + 1 + (i : Int) = (i : Int) := by ring
      rw [h0, gomod_eq_emod (Int.natCast_nonneg i) (le_of_lt hpos),
        Int.emod_eq_of_lt (Int.natCast_nonneg i) (by exact_mod_cast hi)]
      simp
    rw [List.map_congr_left hcong]
    exact List.map_id' _
  · intro hmru0
    unfold specProbeOrder
    have hlt : c.connectors.length - 1 < c.connectors.length := by omega
    rw [List.getElem?_map, List.getElem?_range hlt]
    have hcast : ((c.connectors.length - 1 : Nat) : Int) = (c.connectors.length : Int) - 1 := by
      omega
    have harg : c.mru + 1 + ((c.connectors.length - 1 : Nat) : Int)
        = c.mru + 1 * (c.connectors.length : Int) := by
      rw [hcast]
      ring
    simp only [Option.map_some']
    rw [harg]
    rw [gomod_eq_emod (by omega) (le_of_lt hpos), Int.add_mul_emod_self,
      Int.emod_eq_of_lt hmru0 hm2]

/-- C5 witness. -/
theorem connectany_probe_order_witness :
    1 ≤ connStateMruA.connectors.length ∧ (connectanyProbes worldOnlyA connStateMruA).Nodup :=
  ⟨by decide,
   (connectany_probe_order worldOnlyA connStateMruA (by decide) (by decide) (by decide)).2.1⟩

/-- C6: a panic in the unit of work leads to exactly one rollback
attempt, and the returned error carries the `TransactionError` tagged
`"panic"` wrapping the captured stack snapshot — as the whole returned
error when the rollback succeeds, and joined with the rollback-tagged
error when the rollback fails, where it is still found by `errors.Is`. -/
theorem transact_panic_rolls_back_once (name : String) (rb cm : Option Err) :
    (transact name none .panics rb cm).rollbacks = 1 ∧
    (transact name none .panics rb cm).err = some (match rb with
      | none => Err.transaction name "panic" .stack
      | some rbe => .join (toErrList
          [.transaction name "panic" .stack, .transaction name "rollback" rbe])) ∧
    errHasTxTag name "panic" (((transact name none .panics rb cm).err).getD (.base 0))
      = true := by
  cases rb <;> cases cm <;> refine ⟨rfl, rfl, ?_⟩ <;>
    simp [transact, transactAfterBegin, errHasTxTag, errListHasTxTag, toErrList]

/-- C7: a non-nil error from the unit of work leads to exactly one
rollback attempt; when the rollback succeeds the returned error is the
untagged `TransactionError` whose wrapped cause is the unit-of-work
error, and when the rollback fails the returned error is the join of
that untagged error with a `TransactionError` tagged `"rollback"`
wrapping the rollback failure (found by `errors.Is`). -/
theorem transact_uow_error_rolls_back_once (name : String) (e : Err) (rb cm : Option Err) :
    (transact name none (.fails e) rb cm).rollbacks = 1 ∧
    (transact name none (.fails e) rb cm).err = some (match rb with
      | none => Err.transaction name "" e
      | some rbe => .join (toErrList
          [.transaction name "" e, .transaction name "rollback" rbe])) ∧
    rb.elim True (fun _ => errHasTxTag name "rollback"
      (((transact name none (.fails e) rb cm).err).getD (.base 0)) = true) := by
  cases rb with
  | none => cases cm <;> exact ⟨rfl, rfl, trivial⟩
  | some rbe =>
    cases cm <;> refine ⟨rfl, rfl, ?_⟩ <;>
      simp [transact, transactAfterBegin, errHasTxTag, errListHasTxTag, toErrList]

/-- C8: when `op`'s first invocation fails with an error that is not
classified as `driver.ErrBadConn`, `retry.try` returns that error
unchanged after exactly one invocation of `op` and zero rotations, with
the connection state untouched. -/
theorem retryTry_non_badconn_returned_unchanged (w : World)
    (op : Nat → Option Handle → Option Err) (fuel : Nat) (c : Conn) (e : Err)
    (h1 : op 0 c.db = some e) (h2 : errHasBadConn e = false) :
    retryTry w op (fuel + 1) c 0 0 = some ⟨c, some e, 1, 0⟩ := by
  simp [retryTry, h1, h2]

/-- C8 witness. -/
theorem retryTry_non_badconn_returned_unchanged_witness :
    (fun _ _ => some (Err.base 5) : Nat → Option Handle → Option Err) 0 connStateMruA.db
        = some (.base 5) ∧
    errHasBadConn (.base 5) = false ∧
    retryTry worldOnlyA (fun _ _ => some (Err.base 5)) 1 connStateMruA 0 0
        = some ⟨connStateMruA, some (.base 5), 1, 0⟩ :=
  ⟨rfl, rfl,
   retryTry_non_badconn_returned_unchanged worldOnlyA
     (fun _ _ => some (Err.base 5)) 0 connStateMruA (.base 5) rfl rfl⟩

/-- C9: the `mru` invariant — `mru` is `-1` or a valid index into
`connectors` — holds of `NewConnection`'s initial state and is preserved
by every operation that can touch it: `connectany`, `reconnect` (close
plus `connectany`) and `retry.try` (which reconnects on bad-connection
errors); and whenever `connectany` changes `mru`, the connector at the
new index produced a handle whose open and ping both succeeded and that
handle is the newly installed live handle. -/
theorem connectany_preserves_mru_invariant (w : World) (c : Conn)
    (hn : 1 ≤ c.connectors.length) (hm : mruInv c) :
    mruInv (connectany w c).1 ∧
    ((connectany w c).1.mru ≠ c.mru → ∃ hdl,
      (connectany w c).1.db = some hdl ∧
      w.openRes (c.connectors.getD (connectany w c).1.mru.toNat default).driver
        (c.connectors.getD (connectany w c).1.mru.toNat default).connString = .ok hdl ∧
      w.pingRes hdl = none) ∧
    mruInv (reconnect w c).1 ∧
    (∀ (op : Nat → Option Handle → Option Err) (fuel calls rots : Nat) (r : TryResult),
      retryTry w op fuel c calls rots = some r → mruInv r.conn) ∧
    mruInv newConnectionInit := by
  obtain ⟨h1, h2⟩ := connectany_inv_aux w c hn hm
  have hm2 : mruInv ({ c with db := none } : Conn) := hm
  refine ⟨h1, h2, (connectany_inv_aux w { c with db := none } hn hm2).1, ?_, Or.inl rfl⟩
  intro op fuel calls rots r hr
  exact retryTry_mruInv w op fuel c calls rots r hn hm hr

/-- C9 witness. -/
theorem connectany_preserves_mru_invariant_witness :
    1 ≤ connStateMruA.connectors.length ∧ mruInv (connectany worldOnlyA connStateMruA).1 :=
  ⟨by decide,
   (connectany_preserves_mru_invariant worldOnlyA connStateMruA (by decide)
     (Or.inr ⟨by decide, by decide⟩)).1⟩

/-- C10: starting from `NewConnection`'s initial state, any successful
sequence of configuration functions yields a connectors list that is the
first-occurrence deduplication of the requested connectors: pairwise
distinct, in first-added order, containing exactly the requested
connectors. -/
theorem configured_connectors_distinct (fs : List CfgFunc) (c' : Conn)
    (h : applyCfgs newConnectionInit fs = .ok c') :
    c'.connectors = firstDedup (requested fs) ∧
    c'.connectors.Nodup ∧
    c'.connectors = ((requested fs).reverse.dedup).reverse ∧
    (∀ x, x ∈ c'.connectors ↔ x ∈ requested fs) := by
  have h1 := applyCfgs_connectors fs newConnectionInit c' h
  have h2 : c'.connectors = firstDedup (requested fs) := h1
  refine ⟨h2, ?_, ?_, ?_⟩
  · rw [h2]
    exact foldl_addConnector_nodup _ _ List.nodup_nil
  · rw [h2, firstDedup_eq_reverse_dedup]
  · intro x
    rw [h2, mem_firstDedup]

/-- C10 witness. -/
theorem configured_connectors_distinct_witness :
    applyCfgs newConnectionInit
        [.withConnector connA, .withConnectors [connA, connB], .withConnector connB]
        = .ok (⟨none, [connA, connB], -1, false, 0⟩ : Conn) ∧
    (⟨none, [connA, connB], -1, false, 0⟩ : Conn).connectors.Nodup :=
  ⟨rfl,
   (configured_connectors_distinct
     [.withConnector connA, .withConnectors [connA, connB], .withConnector connB]
     (⟨none, [connA, connB], -1, false, 0⟩ : Conn) rfl).2.1⟩

end DatabaseSpec
